import Mathlib

/-!
# Verification of the asteroids-rs simulation core

Shallow embedding of the entity store / tick runner (`src/ecs.rs`,
`src/game_ecs.rs`) and of the collision subsystem (`src/physics.rs`,
`src/game/physics.rs`) of the asteroids-rs repository, together with proofs
of the specification claims about them.

Modelling conventions:
* `f32` scalars are modelled by exact rationals `ℚ` (idealised real
  arithmetic; floating-point rounding is out of scope).
* The source computes Euclidean distances with `Vec2::distance` (a square
  root) and only ever compares them against radii.  The embedding encodes
  each comparison exactly through squared distances (`dist2`), and bridge
  lemmas relate the encoded booleans to the real-valued `Real.sqrt`
  statements, so no computation is lost.
* A rotation angle is only ever used through `rotation.sin_cos()` in the
  source; the embedding abstracts an angle by that `(sin, cos)` pair
  (a `Vec2` named `sinCos`), which keeps every definition computable.
-/

namespace Asteroids

/-- Two-dimensional vector with rational coordinates (models `glam::Vec2`). -/
structure Vec2 where
  x : ℚ
  y : ℚ
deriving DecidableEq

instance : Add Vec2 := ⟨fun a b => ⟨a.x + b.x, a.y + b.y⟩⟩

/-- Models `glam::Vec2::rotate`: complex multiplication `v * sc`.  The source always
calls it as `v.rotate(rotation.sin_cos().into())`, so `sc = (sin θ, cos θ)`. -/
def rotateBy (v sc : Vec2) : Vec2 :=
  ⟨v.x * sc.x - v.y * sc.y, v.y * sc.x + v.x * sc.y⟩

/-- Squared Euclidean distance between two points. -/
def dist2 (p q : Vec2) : ℚ :=
  (p.x - q.x) ^ 2 + (p.y - q.y) ^ 2

/-- Models `left.distance(right) <= r`, encoded through squares. -/
def distLe (p q : Vec2) (r : ℚ) : Bool :=
  decide (0 ≤ r ∧ dist2 p q ≤ r ^ 2)

/-- Models `left.distance(right) < r`, encoded through squares. -/
def distLt (p q : Vec2) (r : ℚ) : Bool :=
  decide (0 < r ∧ dist2 p q < r ^ 2)

/-- Models `left.distance(right) > r`, encoded through squares. -/
def distGt (p q : Vec2) (r : ℚ) : Bool :=
  decide (r < 0 ∨ r ^ 2 < dist2 p q)

/-! ## Collider model of `src/game/physics.rs` -/

/-- Three vertices (models the `[Vec2; 3]` arrays of the source). -/
structure Tri3 where
  v0 : Vec2
  v1 : Vec2
  v2 : Vec2
deriving DecidableEq

/-- Models `PointCollider` of `src/game/physics.rs`. -/
structure PointCollider where
  center : Vec2
  radius : ℚ
deriving DecidableEq

/-- Models `PointCollider::transform`: translates the center, keeps the radius. -/
def PointCollider.transform (c : PointCollider) (position : Vec2) : PointCollider :=
  { center := position + c.center, radius := c.radius }

/-- Models `TriangleCollider` of `src/game/physics.rs`. -/
structure TriangleCollider where
  center : Vec2
  vertices : Tri3
  radius : ℚ
deriving DecidableEq

/-- Models `TriangleCollider::transform`: rotates every vertex by the angle's
`(sin, cos)` pair, then translates; the center only translates. -/
def TriangleCollider.transform (c : TriangleCollider) (position : Vec2) (sinCos : Vec2) :
    TriangleCollider :=
  { center := position + c.center
    vertices :=
      ⟨position + rotateBy c.vertices.v0 sinCos,
       position + rotateBy c.vertices.v1 sinCos,
       position + rotateBy c.vertices.v2 sinCos⟩
    radius := c.radius }

/-- The `determinant` helper of `barycentric_triangle_point_test`. -/
def determinant (point v1 v2 : Vec2) : ℚ :=
  (point.x - v2.x) * (v1.y - v2.y) - (point.y - v2.y) * (v1.x - v2.x)

/-- Models `barycentric_triangle_point_test` of `src/game/physics.rs`: the point is
inside iff the three edge determinants do not contain both a strictly
negative and a strictly positive value. -/
def barycentric_triangle_point_test (point : Vec2) (triangle : Tri3) : Bool :=
  let d1 := determinant point triangle.v0 triangle.v1
  let d2 := determinant point triangle.v1 triangle.v2
  let d3 := determinant point triangle.v2 triangle.v0
  let negative := decide (d1 < 0) || decide (d2 < 0) || decide (d3 < 0)
  let positive := decide (0 < d1) || decide (0 < d2) || decide (0 < d3)
  !(negative && positive)

/-- Models `point_point_collision_test` of `src/game/physics.rs`. -/
def point_point_collision_test (left right : PointCollider) : Bool :=
  distLe left.center right.center (left.radius + right.radius)

/-- Models `triangle_point_collision_test` of `src/game/physics.rs`. -/
def triangle_point_collision_test (left : TriangleCollider) (right : PointCollider) : Bool :=
  if distGt left.center right.center (left.radius + right.radius) then false
  else barycentric_triangle_point_test right.center left.vertices

/-- The inner one-directional `test` of `triangle_triangle_collision_test`:
some vertex of `left` lies inside `right`. -/
def triangleVertexTest (left right : TriangleCollider) : Bool :=
  barycentric_triangle_point_test left.vertices.v0 right.vertices ||
  barycentric_triangle_point_test left.vertices.v1 right.vertices ||
  barycentric_triangle_point_test left.vertices.v2 right.vertices

/-- Models `triangle_triangle_collision_test` of `src/game/physics.rs`. -/
def triangle_triangle_collision_test (left right : TriangleCollider) : Bool :=
  if distGt left.center right.center (left.radius + right.radius) then false
  else triangleVertexTest left right || triangleVertexTest right left

/-- Models `Collider` of `src/game/physics.rs`. -/
inductive Collider where
  | point : PointCollider → Collider
  | triangle : TriangleCollider → Collider
deriving DecidableEq

/-- Models `Collider::transform` of `src/game/physics.rs`. -/
def Collider.transform : Collider → Vec2 → Vec2 → Collider
  | .point c, position, _ => .point (c.transform position)
  | .triangle c, position, sinCos => .triangle (c.transform position sinCos)

/-- Models `Collider::collision_test` of `src/game/physics.rs`. -/
def Collider.collision_test : Collider → Collider → Bool
  | .point l, .point r => point_point_collision_test l r
  | .point l, .triangle r => triangle_point_collision_test r l
  | .triangle l, .point r => triangle_point_collision_test l r
  | .triangle l, .triangle r => triangle_triangle_collision_test l r

/-! ## Collider tests of `src/physics.rs` (the diff-based physics version) -/

/-- The `bar` helper of `point_collider_test` in `src/physics.rs`. -/
def bar (p1 p2 p3 : Vec2) : ℚ :=
  (p1.x - p3.x) * (p2.y - p3.y) - (p2.x - p3.x) * (p1.y - p3.y)

/-- Models `point_collider_test` of `src/physics.rs` (colliders there are bare
`[Vec2; 3]` triangles). -/
def point_collider_test (point : Vec2) (collider : Tri3) : Bool :=
  let d1 := bar point collider.v0 collider.v1
  let d2 := bar point collider.v1 collider.v2
  let d3 := bar point collider.v2 collider.v0
  let has_neg := decide (d1 < 0) || decide (d2 < 0) || decide (d3 < 0)
  let has_pos := decide (0 < d1) || decide (0 < d2) || decide (0 < d3)
  !(has_neg && has_pos)

/-- Models `collision_test` of `src/physics.rs`: some vertex of either triangle lies
inside the other.  No radius gate appears here — in that file the radius
rejection happens earlier, inside `resolve`. -/
def collision_test (left right : Tri3) : Bool :=
  ([left.v0, left.v1, left.v2].any fun point => point_collider_test point right) ||
  ([right.v0, right.v1, right.v2].any fun point => point_collider_test point left)

/-- The point `(1-u) • a + u • b` on the segment from `a` to `b`. -/
def edgePoint (a b : Vec2) (u : ℚ) : Vec2 :=
  ⟨a.x + u * (b.x - a.x), a.y + u * (b.y - a.y)⟩

/-! ## `Physics::resolve` of `src/physics.rs`

The collider groups live in a `BTreeMap<EntityId, ColliderGroup>`, modelled
as an association list (iteration order is not needed for the claims below).
`List.flatMap` mirrors the `flat_map` iterator chains of the source. -/

/-- Models `ColliderGroup` of `src/physics.rs`; the rotation angle is abstracted by
its `(sin, cos)` pair. -/
structure ColliderGroup where
  position : Vec2
  sinCos : Vec2
  radius : ℚ
  colliders : List Tri3
deriving DecidableEq

/-- Models `translate_rotate` of `src/physics.rs`. -/
def translate_rotate (collider : Tri3) (position : Vec2) (sinCos : Vec2) : Tri3 :=
  ⟨rotateBy collider.v0 sinCos + position,
   rotateBy collider.v1 sinCos + position,
   rotateBy collider.v2 sinCos + position⟩

/-- The per-collider `Item` record built inside `resolve`. -/
structure Item where
  entity_id : ℕ
  radius : ℚ
  position : Vec2
  collider : Tri3
deriving DecidableEq

/-- The flattening of the collider groups into `Item`s; both occurrences of
the iterator chain in `resolve` build exactly this sequence. -/
def resolveItems (groups : List (ℕ × ColliderGroup)) : List Item :=
  groups.flatMap fun g =>
    g.2.colliders.map fun c =>
      { entity_id := g.1, radius := g.2.radius, position := g.2.position,
        collider := translate_rotate c g.2.position g.2.sinCos }

/-- The ordered candidate pairs enumerated by `resolve`, after the
`left.entity_id < right.entity_id` deduplication filter and before the
broad-phase distance filter. -/
def resolveCandidates (groups : List (ℕ × ColliderGroup)) : List (Item × Item) :=
  (resolveItems groups).flatMap fun left =>
    ((resolveItems groups).filter fun right =>
        decide (left.entity_id < right.entity_id)).map fun right => (left, right)

/-- Broad-phase filter of `resolve`: keep the pair iff the distance between
the group origins is strictly less than the sum of the radii. -/
def broadPhase (p : Item × Item) : Bool :=
  distLt p.1.position p.2.position (p.1.radius + p.2.radius)

/-- Narrow-phase filter of `resolve`. -/
def narrowPhase (p : Item × Item) : Bool :=
  collision_test p.1.collider p.2.collider

/-- Models `resolve` of `src/physics.rs` up to the final `BTreeSet` collection: the
`Collision` records (unordered id pairs, `Collision::from([left, right])`)
that survive the id, distance and collision-test filters, in enumeration
order. -/
def resolveCollisions (groups : List (ℕ × ColliderGroup)) : List (Finset ℕ) :=
  (resolveItems groups).flatMap fun left =>
    ((((resolveItems groups).filter fun right =>
          decide (left.entity_id < right.entity_id)).filter fun right =>
          distLt left.position right.position (left.radius + right.radius)).filter fun right =>
          collision_test left.collider right.collider).map fun right =>
      ({left.entity_id, right.entity_id} : Finset ℕ)

/-! ## `Physics::collect_collisions` of `src/game/physics.rs`

The entity store iterated here (`self.ecs.read().iter()`) yields the
occupied slots of the `Vec<Option<Entity>>` in ascending index order — the
`EntityIter` implemented in `src/game_ecs.rs`.  Entities are the variants of
`src/game/entities.rs`; only the components read by the physics worker
(`transform()` and `collider()`) are modelled, the other components are
never touched by this code. -/

/-- Models `TransformComponent`: position plus rotation, the latter abstracted by
its `(sin, cos)` pair. -/
structure GTransform where
  position : Vec2
  sinCos : Vec2
deriving DecidableEq

/-- Models `ColliderComponent` of `src/game/entities.rs`. -/
structure ColliderComponent where
  colliders : List Collider
deriving DecidableEq

/-- The `Entity` union of `src/game/entities.rs`, restricted to the
components the physics worker reads: every variant has a transform; the
`Camera` variant has no collider component, the other three do. -/
inductive GEntity where
  | camera (transform : GTransform)
  | spacecraft (transform : GTransform) (collider : ColliderComponent)
  | asteroid (transform : GTransform) (collider : ColliderComponent)
  | bullet (transform : GTransform) (collider : ColliderComponent)
deriving DecidableEq

/-- Models `Entity::transform` of `src/game/entities.rs`. -/
def GEntity.transform : GEntity → GTransform
  | .camera t => t
  | .spacecraft t _ => t
  | .asteroid t _ => t
  | .bullet t _ => t

/-- Models `Entity::collider` of `src/game/entities.rs`. -/
def GEntity.collider : GEntity → Option ColliderComponent
  | .camera _ => none
  | .spacecraft _ c => some c
  | .asteroid _ c => some c
  | .bullet _ c => some c

/-- The occupied slots of a store, in ascending index order: the sequence
produced by `EntityIter` (`src/game_ecs.rs`) and by the
`iter().enumerate().filter_map(..)` scan of `worker_func` (`src/ecs.rs`). -/
def occupiedSlots {α : Type} (store : List (Option α)) : List (ℕ × α) :=
  store.enum.filterMap fun p => p.2.map fun e => (p.1, e)

/-- The `iter_entities` closure of `collect_collisions`: every world-space
transformed collider of every occupied, collider-bearing entity, tagged
with its entity id. -/
def collectItems (store : List (Option GEntity)) : List (ℕ × Collider) :=
  ((occupiedSlots store).filterMap fun p =>
      p.2.collider.map fun cc => (p.1, p.2.transform, cc)).flatMap
    fun t => t.2.2.colliders.map fun c => (t.1, c.transform t.2.1.position t.2.1.sinCos)

/-- The directed `(entity_id, Collision(peer))` entries produced by the
enumeration in `collect_collisions`: pairs are deduplicated by
`left_entity_id > right_entity_id`, tested with `collision_test`, and each
surviving pair inserts both directed entries. -/
def collectPairs (store : List (Option GEntity)) : List (ℕ × ℕ) :=
  (collectItems store).flatMap fun left =>
    (((collectItems store).filter fun right => decide (left.1 > right.1)).filter
        fun right => left.2.collision_test right.2).flatMap
      fun right => [(left.1, right.1), (right.1, left.1)]

/-- One step of the final `fold` of `collect_collisions`:
`map.entry(entity_id).or_default().insert(collision)`. -/
def insertCollision (m : ℕ → Finset ℕ) (p : ℕ × ℕ) : ℕ → Finset ℕ :=
  fun i => if i = p.1 then insert p.2 (m i) else m i

/-- Models `collect_collisions`: the per-entity collision sets, as a total map from
entity id to the set of peer ids (absent keys map to the empty set, matching
`BTreeMap::entry(..).or_default()`). -/
def collectCollisions (store : List (Option GEntity)) : ℕ → Finset ℕ :=
  (collectPairs store).foldl insertCollision fun _ => ∅

/-! ## The entity store and tick runner (`src/ecs.rs` and `src/game_ecs.rs`)

The two files implement the same store and worker; the code modelled below
is line-for-line identical in both (the game variant renames `delta` to
`elapsed` and factors the lock into `EntitiesWriteLock::create/destroy`).
The store is a `Vec<Option<Entity>>`; the entity type is abstract here. -/

/-- Events sent on the notification channel by the store. -/
inductive EcsEvent where
  | entityCreated (id : ℕ)
  | entityDestroyed (id : ℕ)
deriving DecidableEq

/-- Models `entities.get(entity_id).and_then(|slot| slot.as_ref())`. -/
def getSlot {α : Type} (entities : List (Option α)) (entity_id : ℕ) : Option α :=
  (entities[entity_id]?).join

/-- Models `ECS::create_entity` (`src/ecs.rs`), identical to
`EntitiesWriteLock::create` (`src/game_ecs.rs`): take the position of the
first empty slot, or append when every slot is occupied; store the entity
there; emit `EntityCreated`.  Returns the id, the new store and the emitted
events. -/
def create_entity {α : Type} (entities : List (Option α)) (entity : α) :
    ℕ × List (Option α) × List EcsEvent :=
  match entities.findIdx? fun slot => slot.isNone with
  | some index => (index, entities.set index (some entity), [.entityCreated index])
  | none => (entities.length, entities ++ [some entity], [.entityCreated entities.length])

/-- Models `ECS::destroy_entity` (`src/ecs.rs`), identical to
`EntitiesWriteLock::destroy` (`src/game_ecs.rs`): `entities.get_mut(id)`
succeeds for *any* in-range index, so the slot is cleared and
`EntityDestroyed` is emitted whenever `entity_id < entities.len()`,
regardless of whether the slot was occupied. -/
def destroy_entity {α : Type} (entities : List (Option α)) (entity_id : ℕ) :
    List (Option α) × List EcsEvent :=
  if entity_id < entities.length then
    (entities.set entity_id none, [.entityDestroyed entity_id])
  else (entities, [])

/-- The deferred `Action` enqueued by systems. -/
inductive EcsAction (α : Type) where
  | modify (entity_id : ℕ) (func : α → α)
  | destroy (entity_id : ℕ)

/-- What a single system invocation can request: `SystemArgs::modify` and
`SystemArgs::destroy` both consume the arguments, so an invocation enqueues
at most one action, and always against the invocation's own entity id. -/
inductive ActionReq (α : Type) where
  | modify (func : α → α)
  | destroy

/-- A system: given the tick's `delta`, the current entity id, the current
entity, and read access to the whole (pre-tick) entity collection
(`SystemArgs::get_entity`), it may request one deferred action. -/
def EcsSystem (α : Type) : Type :=
  ℚ → ℕ → α → (ℕ → Option α) → Option (ActionReq α)

/-- Attach the current entity id to a requested action, as
`SystemArgs::modify` / `SystemArgs::destroy` do. -/
def attachAction {α : Type} (entity_id : ℕ) : ActionReq α → EcsAction α
  | .modify func => .modify entity_id func
  | .destroy => .destroy entity_id

/-- One step of the second loop of `worker_func`: apply a deferred action to
the store, accumulating emitted events.  `Modify` runs the closure only if
the slot is still occupied; `Destroy` clears any in-range slot and emits
`EntityDestroyed` (like `destroy_entity`, even if the slot was empty). -/
def applyAction {α : Type} (s : List (Option α) × List EcsEvent) (a : EcsAction α) :
    List (Option α) × List EcsEvent :=
  match a with
  | .modify entity_id func =>
      match getSlot s.1 entity_id with
      | some entity => (s.1.set entity_id (some (func entity)), s.2)
      | none => s
  | .destroy entity_id =>
      if entity_id < s.1.length then
        (s.1.set entity_id none, s.2 ++ [.entityDestroyed entity_id])
      else s

/-- The double loop of `worker_func`: for every occupied slot in ascending
index order, invoke every registered system (in the registry's iteration
order), growing the `actions` vector; the store is only read during the
scan, every read going through the pre-tick `entities`. -/
def scanLoop {α : Type} (systems : List (String × EcsSystem α)) (delta : ℚ)
    (entities : List (Option α)) :
    List (ℕ × α) → List (EcsAction α) → List (EcsAction α)
  | [], actions => actions
  | (entity_id, entity) :: rest, actions =>
      scanLoop systems delta entities rest
        (actions ++ systems.filterMap fun s =>
          (s.2 delta entity_id entity fun j => getSlot entities j).map (attachAction entity_id))

/-- Models `worker_func` (`src/ecs.rs` and `src/game_ecs.rs`): scan all occupied
slots invoking every system, then apply the queued actions in enqueue
order.  Returns the post-tick store and the emitted events. -/
def worker_func {α : Type} (systems : List (String × EcsSystem α)) (delta : ℚ)
    (entities : List (Option α)) : List (Option α) × List EcsEvent :=
  (scanLoop systems delta entities (occupiedSlots entities) []).foldl applyAction (entities, [])

/-- Declarative form of the scan: the actions enqueued during one tick, every
system invocation reading through the *pre-tick* `entities`. -/
def scanActions {α : Type} (systems : List (String × EcsSystem α)) (delta : ℚ)
    (entities : List (Option α)) : List (EcsAction α) :=
  (occupiedSlots entities).flatMap fun p =>
    systems.filterMap fun s =>
      (s.2 delta p.1 p.2 fun j => getSlot entities j).map (attachAction p.1)

/-- The invocation trace of one tick: one `(entity id, system name)` entry
per system invocation, in execution order. -/
def tickInvocations {α : Type} (systems : List (String × EcsSystem α))
    (entities : List (Option α)) : List (ℕ × String) :=
  (occupiedSlots entities).flatMap fun p => systems.map fun s => (p.1, s.1)

theorem Vec2.add_def (a b : Vec2) : a + b = ⟨a.x + b.x, a.y + b.y⟩ := rfl

theorem dist2_nonneg (p q : Vec2) : (0 : ℚ) ≤ dist2 p q := by
  unfold dist2; positivity

theorem dist2_comm (p q : Vec2) : dist2 p q = dist2 q p := by
  unfold dist2; ring

theorem distLe_iff (p q : Vec2) (r : ℚ) :
    distLe p q r = true ↔ Real.sqrt ((dist2 p q : ℚ) : ℝ) ≤ (r : ℝ) := by
  simp only [distLe, decide_eq_true_eq, Real.sqrt_le_iff]
  constructor
  · rintro ⟨h0, h2⟩
    exact ⟨by exact_mod_cast h0, by exact_mod_cast h2⟩
  · rintro ⟨h0, h2⟩
    exact ⟨by exact_mod_cast h0, by exact_mod_cast h2⟩

theorem distLt_iff (p q : Vec2) (r : ℚ) :
    distLt p q r = true ↔ Real.sqrt ((dist2 p q : ℚ) : ℝ) < (r : ℝ) := by
  simp only [distLt, decide_eq_true_eq]
  rcases lt_or_le 0 r with hr | hr
  · have hr' : (0 : ℝ) < (r : ℝ) := by exact_mod_cast hr
    rw [Real.sqrt_lt' hr']
    constructor
    · rintro ⟨-, h⟩; exact_mod_cast h
    · intro h; exact ⟨hr, by exact_mod_cast h⟩
  · have hr' : (r : ℝ) ≤ 0 := by exact_mod_cast hr
    constructor
    · rintro ⟨h0, -⟩; exact absurd h0 (not_lt.mpr hr)
    · intro h
      exact absurd (lt_of_le_of_lt (Real.sqrt_nonneg _) h) (not_lt.mpr hr')

theorem distGt_iff (p q : Vec2) (r : ℚ) :
    distGt p q r = true ↔ (r : ℝ) < Real.sqrt ((dist2 p q : ℚ) : ℝ) := by
  simp only [distGt, decide_eq_true_eq]
  rcases lt_or_le r 0 with hr | hr
  · have hr' : (r : ℝ) < 0 := by exact_mod_cast hr
    constructor
    · intro _; exact lt_of_lt_of_le hr' (Real.sqrt_nonneg _)
    · intro _; exact Or.inl hr
  · have hr' : (0 : ℝ) ≤ (r : ℝ) := by exact_mod_cast hr
    rw [Real.lt_sqrt hr']
    constructor
    · rintro (h | h)
      · exact absurd h (not_lt.mpr hr)
      · exact_mod_cast h
    · intro h; exact Or.inr (by exact_mod_cast h)

theorem distGt_eq_false_iff (p q : Vec2) (r : ℚ) :
    distGt p q r = false ↔ Real.sqrt ((dist2 p q : ℚ) : ℝ) ≤ (r : ℝ) := by
  rw [← not_lt, ← distGt_iff p q r]
  cases h : distGt p q r <;> simp [h]

/-- C5: `point_point_collision_test` returns `true` iff the distance between
the two centers is at most the sum of the radii; concretely the two points at
`(0,0)` and `(1,0)` collide with radius `0.6` each and do not collide with
radius `0.4` each. -/
theorem c5_point_point_collision (l r : PointCollider) :
    (point_point_collision_test l r = true ↔
      Real.sqrt ((dist2 l.center r.center : ℚ) : ℝ) ≤ ((l.radius + r.radius : ℚ) : ℝ))
    ∧ point_point_collision_test ⟨⟨0, 0⟩, 3/5⟩ ⟨⟨1, 0⟩, 3/5⟩ = true
    ∧ point_point_collision_test ⟨⟨0, 0⟩, 2/5⟩ ⟨⟨1, 0⟩, 2/5⟩ = false := by
  refine ⟨?_, ?_, ?_⟩
  · exact distLe_iff l.center r.center (l.radius + r.radius)
  · simp only [point_point_collision_test, distLe, dist2, decide_eq_true_eq]
    norm_num
  · simp only [point_point_collision_test, distLe, dist2, decide_eq_false_iff_not]
    norm_num

theorem bar_eq_determinant (p a b : Vec2) : bar p a b = determinant p a b := by
  unfold bar determinant; ring

/-- The two barycentric implementations (`src/physics.rs` and
`src/game/physics.rs`) compute the same function. -/
theorem point_collider_test_eq (p : Vec2) (t : Tri3) :
    point_collider_test p t = barycentric_triangle_point_test p t := by
  simp only [point_collider_test, barycentric_triangle_point_test, bar_eq_determinant]

/-- Propositional reading of `barycentric_triangle_point_test`. -/
theorem bary_test_iff (p : Vec2) (t : Tri3) :
    barycentric_triangle_point_test p t = true ↔
      ¬((determinant p t.v0 t.v1 < 0 ∨ determinant p t.v1 t.v2 < 0 ∨
          determinant p t.v2 t.v0 < 0) ∧
        (0 < determinant p t.v0 t.v1 ∨ 0 < determinant p t.v1 t.v2 ∨
          0 < determinant p t.v2 t.v0)) := by
  simp only [barycentric_triangle_point_test, Bool.not_eq_true', Bool.and_eq_false_iff,
    Bool.or_eq_false_iff, decide_eq_false_iff_not]
  tauto

/-- If the three edge determinants of `p` against `t` all carry the same sign
factor `S` with nonnegative coefficients, the barycentric test accepts `p`. -/
theorem bary_true_of_factors (p : Vec2) (t : Tri3) (S a b c : ℚ)
    (ha : determinant p t.v0 t.v1 = a * S)
    (hb : determinant p t.v1 t.v2 = b * S)
    (hc : determinant p t.v2 t.v0 = c * S)
    (ha0 : 0 ≤ a) (hb0 : 0 ≤ b) (hc0 : 0 ≤ c) :
    barycentric_triangle_point_test p t = true := by
  rw [bary_test_iff]
  rintro ⟨hneg, hpos⟩
  rw [ha, hb, hc] at hneg hpos
  rcases le_or_lt 0 S with hS | hS
  · rcases hneg with h | h | h
    · exact absurd h (not_lt.mpr (mul_nonneg ha0 hS))
    · exact absurd h (not_lt.mpr (mul_nonneg hb0 hS))
    · exact absurd h (not_lt.mpr (mul_nonneg hc0 hS))
  · rcases hpos with h | h | h <;> nlinarith

/-- C6: the barycentric test accepts exactly when the three signed areas do
not contain both a strictly negative and a strictly positive value; the
`src/physics.rs` copy computes the same function; and every point on one of
the triangle's edges (hence with one determinant equal to zero) is classified
as inside. -/
theorem c6_barycentric_inside (p : Vec2) (t : Tri3) (u : ℚ) :
    (barycentric_triangle_point_test p t = true ↔
      ¬((determinant p t.v0 t.v1 < 0 ∨ determinant p t.v1 t.v2 < 0 ∨
          determinant p t.v2 t.v0 < 0) ∧
        (0 < determinant p t.v0 t.v1 ∨ 0 < determinant p t.v1 t.v2 ∨
          0 < determinant p t.v2 t.v0)))
    ∧ point_collider_test p t = barycentric_triangle_point_test p t
    ∧ (0 ≤ u → u ≤ 1 →
        barycentric_triangle_point_test (edgePoint t.v0 t.v1 u) t = true ∧
        barycentric_triangle_point_test (edgePoint t.v1 t.v2 u) t = true ∧
        barycentric_triangle_point_test (edgePoint t.v2 t.v0 u) t = true) := by
  refine ⟨bary_test_iff p t, point_collider_test_eq p t, ?_⟩
  intro hu0 hu1
  have h1u : 0 ≤ 1 - u := by linarith
  refine ⟨?_, ?_, ?_⟩
  · exact bary_true_of_factors _ t (determinant t.v0 t.v1 t.v2) 0 (1 - u) u
      (by unfold determinant edgePoint; ring)
      (by unfold determinant edgePoint; ring)
      (by unfold determinant edgePoint; ring)
      le_rfl h1u hu0
  · exact bary_true_of_factors _ t (determinant t.v0 t.v1 t.v2) u 0 (1 - u)
      (by unfold determinant edgePoint; ring)
      (by unfold determinant edgePoint; ring)
      (by unfold determinant edgePoint; ring)
      hu0 le_rfl h1u
  · exact bary_true_of_factors _ t (determinant t.v0 t.v1 t.v2) (1 - u) u 0
      (by unfold determinant edgePoint; ring)
      (by unfold determinant edgePoint; ring)
      (by unfold determinant edgePoint; ring)
      h1u hu0 le_rfl

/-- Witness for C6 at a concrete input: the midpoint of the edge from
`(0, 1)` to `(1, -1)` of the triangle `(0,1), (1,-1), (-1,-1)` is classified
as inside. -/
theorem c6_barycentric_inside_witness :
    barycentric_triangle_point_test (edgePoint ⟨0, 1⟩ ⟨1, -1⟩ (1/2))
      ⟨⟨0, 1⟩, ⟨1, -1⟩, ⟨-1, -1⟩⟩ = true :=
  ((c6_barycentric_inside ⟨0, 0⟩ ⟨⟨0, 1⟩, ⟨1, -1⟩, ⟨-1, -1⟩⟩ (1/2)).2.2
    (by norm_num) (by norm_num)).1

/-- C7 counterexample: a tiny triangle lying wholly inside a large one is
reported as *not* colliding by `triangle_triangle_collision_test`, because
the centers are farther apart than the sum of the stored radii and the
radius gate fires before any vertex test runs; yet a vertex of the small
triangle lies inside the large one, so the claimed iff fails. -/
theorem c7_counterexample :
    triangle_triangle_collision_test
        ⟨⟨0, 0⟩, ⟨⟨0, 10⟩, ⟨10, -10⟩, ⟨-10, -10⟩⟩, 1⟩
        ⟨⟨5, -5⟩, ⟨⟨5, -5⟩, ⟨6, -6⟩, ⟨4, -6⟩⟩, 1⟩ = false
    ∧ barycentric_triangle_point_test ⟨5, -5⟩ ⟨⟨0, 10⟩, ⟨10, -10⟩, ⟨-10, -10⟩⟩ = true := by
  constructor
  · have hgt : distGt (⟨0, 0⟩ : Vec2) ⟨5, -5⟩ ((1 : ℚ) + 1) = true := by
      rw [distGt, decide_eq_true_eq, dist2]
      norm_num
    simp [triangle_triangle_collision_test, hgt]
  · rw [bary_test_iff]
    norm_num [determinant]

/-- C7 (amended): `triangle_triangle_collision_test` returns `true` iff the
distance between the two centers is at most the sum of the radii *and* some
vertex of either triangle lies inside the other; the radius-gate-free
`collision_test` of `src/physics.rs` returns `true` iff some vertex of
either triangle lies inside the other (so there whole containment is always
detected). -/
theorem c7_triangle_triangle_amended (l r : TriangleCollider) (a b : Tri3) :
    (triangle_triangle_collision_test l r = true ↔
      (Real.sqrt ((dist2 l.center r.center : ℚ) : ℝ) ≤ ((l.radius + r.radius : ℚ) : ℝ) ∧
        (barycentric_triangle_point_test l.vertices.v0 r.vertices = true ∨
         barycentric_triangle_point_test l.vertices.v1 r.vertices = true ∨
         barycentric_triangle_point_test l.vertices.v2 r.vertices = true ∨
         barycentric_triangle_point_test r.vertices.v0 l.vertices = true ∨
         barycentric_triangle_point_test r.vertices.v1 l.vertices = true ∨
         barycentric_triangle_point_test r.vertices.v2 l.vertices = true)))
    ∧ (collision_test a b = true ↔
        (point_collider_test a.v0 b = true ∨ point_collider_test a.v1 b = true ∨
         point_collider_test a.v2 b = true ∨ point_collider_test b.v0 a = true ∨
         point_collider_test b.v1 a = true ∨ point_collider_test b.v2 a = true)) := by
  constructor
  · rw [triangle_triangle_collision_test]
    cases hgt : distGt l.center r.center (l.radius + r.radius)
    · rw [distGt_eq_false_iff] at hgt
      rw [if_neg (by simp)]
      simp only [triangleVertexTest, Bool.or_eq_true, hgt, true_and]
      tauto
    · rw [distGt_iff] at hgt
      rw [if_pos rfl]
      constructor
      · intro h; exact absurd h Bool.false_ne_true
      · rintro ⟨hle, -⟩; exact absurd hle (not_le.mpr hgt)
  · simp only [collision_test, List.any_cons, List.any_nil, Bool.or_eq_true, Bool.or_eq_false_iff]
    tauto

/-- Phase separation: `resolve` is the broad-phase filter followed by the
narrow-phase filter over the deduplicated candidate pairs. -/
theorem resolveCollisions_eq_phases (groups : List (ℕ × ColliderGroup)) :
    resolveCollisions groups =
      (((resolveCandidates groups).filter broadPhase).filter narrowPhase).map
        fun p => ({p.1.entity_id, p.2.entity_id} : Finset ℕ) := by
  unfold resolveCollisions resolveCandidates broadPhase narrowPhase
  simp only [List.filter_flatMap, List.filter_map, List.map_flatMap, List.map_map,
    Function.comp_def]

/-- Counting a mapped pair `(x, ·)`. -/
theorem count_map_pair (x l r : Item) (zs : List Item) :
    List.count (l, r) (zs.map fun y => (x, y)) = if x = l then List.count r zs else 0 := by
  induction zs with
  | nil => simp
  | cons z zs ih =>
      simp only [List.map_cons, List.count_cons, ih, Prod.mk.injEq, beq_iff_eq]
      by_cases hx : x = l
      · subst hx
        by_cases hz : z = r
        · subst hz; simp
        · simp [hz]
      · simp [hx]

/-- Counting inside a filter whose predicate accepts the counted element. -/
theorem count_filter_of_accept {p : Item → Bool} {r : Item} (h : p r = true) :
    ∀ zs : List Item, List.count r (zs.filter p) = List.count r zs := by
  intro zs
  induction zs with
  | nil => simp
  | cons z zs ih =>
      by_cases hz : p z = true
      · rw [List.filter_cons_of_pos hz, List.count_cons, List.count_cons, ih]
      · have hzr : z ≠ r := fun hzr => by rw [hzr] at hz; exact hz h
        rw [List.filter_cons_of_neg (by simp [hz]), List.count_cons_of_ne (Ne.symm hzr), ih]

/-- Counting the candidate pairs of the `resolve` enumeration. -/
theorem count_candidates_aux (xs : List Item) (l r : Item)
    (h : l.entity_id < r.entity_id) :
    ∀ ys : List Item,
      List.count (l, r)
        (ys.flatMap fun x =>
          ((xs.filter fun y => decide (x.entity_id < y.entity_id)).map fun y => (x, y)))
        = List.count l ys * List.count r xs := by
  intro ys
  induction ys with
  | nil => simp
  | cons x ys ih =>
      rw [List.flatMap_cons, List.count_append, ih, count_map_pair]
      by_cases hx : x = l
      · subst hx
        rw [if_pos rfl, count_filter_of_accept (by simpa using h), List.count_cons_self]
        ring
      · rw [if_neg hx, List.count_cons_of_ne (Ne.symm hx), Nat.zero_add]

/-- C4 counterexample.  First: two single-collider entities whose origins are
exactly the sum of the radii apart (distance `2 = 1 + 1`) are *rejected* by
the broad-phase filter of `resolve`, while the claim says such a pair is not
rejected.  Second: when entity `0` carries two colliders and entity `1` one,
the deduplicated enumeration visits the entity pair `(0, 1)` twice — once per
collider pair — not exactly once. -/
theorem c4_counterexample :
    (broadPhase (⟨0, 1, ⟨0, 0⟩, ⟨⟨0, 0⟩, ⟨0, 0⟩, ⟨0, 0⟩⟩⟩, ⟨1, 1, ⟨2, 0⟩, ⟨⟨0, 0⟩, ⟨0, 0⟩, ⟨0, 0⟩⟩⟩) = false
      ∧ Real.sqrt ((dist2 (⟨0, 0⟩ : Vec2) ⟨2, 0⟩ : ℚ) : ℝ) = (((1 : ℚ) + 1 : ℚ) : ℝ))
    ∧ (resolveCandidates
        [(0, ⟨⟨0, 0⟩, ⟨0, 1⟩, 1, [⟨⟨0, 0⟩, ⟨0, 0⟩, ⟨0, 0⟩⟩, ⟨⟨0, 0⟩, ⟨0, 0⟩, ⟨0, 0⟩⟩]⟩),
         (1, ⟨⟨2, 0⟩, ⟨0, 1⟩, 1, [⟨⟨0, 0⟩, ⟨0, 0⟩, ⟨0, 0⟩⟩]⟩)]).length = 2 := by
  refine ⟨⟨?_, ?_⟩, ?_⟩
  · rw [broadPhase, distLt]
    norm_num [dist2]
  · have h4 : ((dist2 (⟨0, 0⟩ : Vec2) ⟨2, 0⟩ : ℚ) : ℝ) = 4 := by
      norm_num [dist2]
    rw [h4, show (4 : ℝ) = 2 ^ 2 by norm_num, Real.sqrt_sq (by norm_num)]
    norm_num
  · norm_num [resolveCandidates, resolveItems, translate_rotate, rotateBy, Vec2.add_def,
      List.flatMap_cons, List.flatMap_nil, List.filter_cons, List.filter_nil]

/-- C4 (amended): in `resolve`, every enumerated candidate pair is oriented
lower-entity-id first (so an unordered pair is never visited in both
orientations); the pair of items `(l, r)` with `l.entity_id < r.entity_id`
is enumerated once per occurrence of `l` and `r` in the flattened item list
— i.e. once per pair of colliders of the two entities; and the broad phase
keeps a pair iff the origin distance is strictly *less* than the sum of the
radii, i.e. it rejects iff the distance is greater than **or equal to** the
radius sum (a pair exactly at the radius sum is rejected).  Moreover
`resolve` is exactly broad phase then narrow phase over these candidates. -/
theorem c4_broad_phase_amended (groups : List (ℕ × ColliderGroup)) (l r : Item) :
    (∀ p ∈ resolveCandidates groups, p.1.entity_id < p.2.entity_id)
    ∧ (l.entity_id < r.entity_id →
        List.count (l, r) (resolveCandidates groups) =
          List.count l (resolveItems groups) * List.count r (resolveItems groups))
    ∧ (broadPhase (l, r) = true ↔
        Real.sqrt ((dist2 l.position r.position : ℚ) : ℝ) < ((l.radius + r.radius : ℚ) : ℝ))
    ∧ resolveCollisions groups =
        (((resolveCandidates groups).filter broadPhase).filter narrowPhase).map
          fun p => ({p.1.entity_id, p.2.entity_id} : Finset ℕ) := by
  refine ⟨?_, ?_, ?_, resolveCollisions_eq_phases groups⟩
  · intro p hp
    simp only [resolveCandidates, List.mem_flatMap, List.mem_map, List.mem_filter,
      decide_eq_true_eq] at hp
    obtain ⟨a, -, b, ⟨-, hab⟩, hpab⟩ := hp
    rw [← hpab]
    exact hab
  · intro h
    exact count_candidates_aux (resolveItems groups) l r h (resolveItems groups)
  · exact distLt_iff l.position r.position (l.radius + r.radius)

/-- Witness for C4 (amended) at a concrete input: two groups with one
collider each at distance `1 < 1 + 1`; the candidate list is the single
pair `(0, 1)`, oriented lower id first, and the broad phase keeps it. -/
theorem c4_broad_phase_amended_witness :
    List.count
      ((⟨0, 1, ⟨0, 0⟩, ⟨⟨0, 0⟩, ⟨0, 0⟩, ⟨0, 0⟩⟩⟩ : Item), (⟨1, 1, ⟨1, 0⟩, ⟨⟨1, 0⟩, ⟨1, 0⟩, ⟨1, 0⟩⟩⟩ : Item))
      (resolveCandidates
        [(0, ⟨⟨0, 0⟩, ⟨0, 1⟩, 1, [⟨⟨0, 0⟩, ⟨0, 0⟩, ⟨0, 0⟩⟩]⟩),
         (1, ⟨⟨1, 0⟩, ⟨0, 1⟩, 1, [⟨⟨0, 0⟩, ⟨0, 0⟩, ⟨0, 0⟩⟩]⟩)]) = 1 := by
  rw [(c4_broad_phase_amended
      [(0, ⟨⟨0, 0⟩, ⟨0, 1⟩, 1, [⟨⟨0, 0⟩, ⟨0, 0⟩, ⟨0, 0⟩⟩]⟩),
       (1, ⟨⟨1, 0⟩, ⟨0, 1⟩, 1, [⟨⟨0, 0⟩, ⟨0, 0⟩, ⟨0, 0⟩⟩]⟩)]
      ⟨0, 1, ⟨0, 0⟩, ⟨⟨0, 0⟩, ⟨0, 0⟩, ⟨0, 0⟩⟩⟩
      ⟨1, 1, ⟨1, 0⟩, ⟨⟨1, 0⟩, ⟨1, 0⟩, ⟨1, 0⟩⟩⟩).2.1 (by norm_num)]
  have hitems : resolveItems
      [(0, ⟨⟨0, 0⟩, ⟨0, 1⟩, 1, [⟨⟨0, 0⟩, ⟨0, 0⟩, ⟨0, 0⟩⟩]⟩),
       (1, ⟨⟨1, 0⟩, ⟨0, 1⟩, 1, [⟨⟨0, 0⟩, ⟨0, 0⟩, ⟨0, 0⟩⟩]⟩)] =
      [⟨0, 1, ⟨0, 0⟩, ⟨⟨0, 0⟩, ⟨0, 0⟩, ⟨0, 0⟩⟩⟩, ⟨1, 1, ⟨1, 0⟩, ⟨⟨1, 0⟩, ⟨1, 0⟩, ⟨1, 0⟩⟩⟩] := by
    simp only [resolveItems, translate_rotate, rotateBy, Vec2.add_def, List.flatMap_cons,
      List.flatMap_nil, List.map_cons, List.map_nil, List.append_nil, List.cons_append,
      List.nil_append, List.cons.injEq, Item.mk.injEq, Tri3.mk.injEq, Vec2.mk.injEq]
    norm_num
  rw [hitems]
  simp [List.count_cons, List.count_nil, beq_iff_eq, Item.mk.injEq]

theorem mem_foldl_insertCollision (l : List (ℕ × ℕ)) (a b : ℕ) :
    ∀ m : ℕ → Finset ℕ, (b ∈ (l.foldl insertCollision m) a ↔ (a, b) ∈ l ∨ b ∈ m a) := by
  induction l with
  | nil => intro m; simp
  | cons p l ih =>
      intro m
      rw [List.foldl_cons, ih]
      by_cases ha : a = p.1
      · subst ha
        have hstep : insertCollision m p p.1 = insert p.2 (m p.1) := by
          unfold insertCollision; rw [if_pos rfl]
        rw [hstep]
        simp only [Finset.mem_insert, List.mem_cons, Prod.ext_iff]
        tauto
      · simp only [insertCollision, if_neg ha, List.mem_cons, Prod.ext_iff]
        constructor
        · rintro (h | h)
          · exact Or.inl (Or.inr h)
          · exact Or.inr h
        · rintro ((⟨h1, -⟩ | h) | h)
          · exact absurd h1 ha
          · exact Or.inl h
          · exact Or.inr h

theorem mem_collectPairs (store : List (Option GEntity)) (x y : ℕ) :
    (x, y) ∈ collectPairs store ↔
      ∃ l ∈ collectItems store, ∃ r ∈ collectItems store,
        r.1 < l.1 ∧ l.2.collision_test r.2 = true ∧
        ((x = l.1 ∧ y = r.1) ∨ (x = r.1 ∧ y = l.1)) := by
  simp only [collectPairs, List.mem_flatMap, List.mem_filter, decide_eq_true_eq, gt_iff_lt,
    List.mem_cons, List.not_mem_nil, or_false, Prod.ext_iff]
  constructor
  · rintro ⟨l, hl, r, ⟨⟨hr, hlt⟩, ht⟩, h⟩
    exact ⟨l, hl, r, hr, hlt, ht, h⟩
  · rintro ⟨l, hl, r, hr, hlt, ht, h⟩
    exact ⟨l, hl, r, ⟨⟨hr, hlt⟩, ht⟩, h⟩

/-- C8: on every tick, `collect_collisions` produces a symmetric relation —
`b` is recorded among `a`'s collisions iff `a` is recorded among `b`'s
(both directed entries are inserted together); and in the diff-based
`resolve` each record is a single unordered set, so it contains both ids
regardless of orientation. -/
theorem c8_collision_symmetry (store : List (Option GEntity))
    (groups : List (ℕ × ColliderGroup)) (a b : ℕ) :
    (b ∈ collectCollisions store a ↔ a ∈ collectCollisions store b)
    ∧ (∀ i j : ℕ, ({i, j} : Finset ℕ) ∈ resolveCollisions groups ↔
        ({j, i} : Finset ℕ) ∈ resolveCollisions groups) := by
  constructor
  · unfold collectCollisions
    rw [mem_foldl_insertCollision, mem_foldl_insertCollision]
    simp only [Finset.not_mem_empty, or_false]
    rw [mem_collectPairs, mem_collectPairs]
    constructor <;> rintro ⟨l, hl, r, hr, hlt, ht, h⟩ <;>
      exact ⟨l, hl, r, hr, hlt, ht, by tauto⟩
  · intro i j
    rw [Finset.pair_comm]

/-- C10: every recorded collision relates two distinct entity ids — in
`collect_collisions` every directed entry joins two different ids, and every
`Collision` record emitted by `resolve` is a pair set of two distinct ids
(the enumerations only keep pairs with strictly ordered identifiers). -/
theorem c10_no_self_collision (store : List (Option GEntity))
    (groups : List (ℕ × ColliderGroup)) :
    (∀ p ∈ collectPairs store, p.1 ≠ p.2)
    ∧ (∀ s ∈ resolveCollisions groups, ∃ i j : ℕ, i ≠ j ∧ s = {i, j}) := by
  constructor
  · rintro ⟨x, y⟩ hp
    rw [mem_collectPairs] at hp
    obtain ⟨l, -, r, -, hlt, -, h⟩ := hp
    rcases h with ⟨hx, hy⟩ | ⟨hx, hy⟩ <;> subst hx <;> subst hy <;> simp <;> omega
  · intro s hs
    simp only [resolveCollisions, List.mem_flatMap, List.mem_map, List.mem_filter,
      decide_eq_true_eq] at hs
    obtain ⟨l, hl, r, hr, hsv⟩ := hs
    refine ⟨l.entity_id, r.entity_id, ?_, hsv.symm⟩
    have hlt : l.entity_id < r.entity_id := by tauto
    omega

theorem scanLoop_eq {α : Type} (systems : List (String × EcsSystem α)) (delta : ℚ)
    (entities : List (Option α)) :
    ∀ (slots : List (ℕ × α)) (actions : List (EcsAction α)),
      scanLoop systems delta entities slots actions =
        actions ++ slots.flatMap fun p =>
          systems.filterMap fun s =>
            (s.2 delta p.1 p.2 fun j => getSlot entities j).map (attachAction p.1) := by
  intro slots
  induction slots with
  | nil => intro actions; simp [scanLoop]
  | cons p rest ih =>
      intro actions
      obtain ⟨entity_id, entity⟩ := p
      rw [scanLoop, ih, List.flatMap_cons, List.append_assoc]

theorem worker_func_eq_scan_then_apply {α : Type} (systems : List (String × EcsSystem α))
    (delta : ℚ) (entities : List (Option α)) :
    worker_func systems delta entities =
      (scanActions systems delta entities).foldl applyAction (entities, []) := by
  unfold worker_func scanActions
  rw [scanLoop_eq, List.nil_append]

theorem occupiedFrom_facts {α : Type} (l : List (Option α)) :
    ∀ n : ℕ,
      ((l.enumFrom n).filterMap fun p => p.2.map fun e => (p.1, e)).Pairwise
          (fun p q => p.1 < q.1)
      ∧ ∀ p ∈ (l.enumFrom n).filterMap fun p => p.2.map fun e => (p.1, e), n ≤ p.1 := by
  induction l with
  | nil => intro n; simp
  | cons s l ih =>
      intro n
      cases s with
      | none =>
          rw [List.enumFrom_cons]
          simp only [List.filterMap_cons, Option.map_none', Option.map_some']
          refine ⟨(ih (n + 1)).1, fun p hp => ?_⟩
          exact le_of_lt (lt_of_lt_of_le (Nat.lt_succ_self n) ((ih (n + 1)).2 p hp))
      | some e =>
          rw [List.enumFrom_cons]
          simp only [List.filterMap_cons, Option.map_none', Option.map_some']
          refine ⟨List.Pairwise.cons ?_ (ih (n + 1)).1, ?_⟩
          · intro q hq
            exact lt_of_lt_of_le (Nat.lt_succ_self n) ((ih (n + 1)).2 q hq)
          · intro p hp
            rcases List.mem_cons.mp hp with h | h
            · rw [h]
            · exact le_of_lt (lt_of_lt_of_le (Nat.lt_succ_self n) ((ih (n + 1)).2 p h))

theorem occupiedSlots_pairwise {α : Type} (entities : List (Option α)) :
    (occupiedSlots entities).Pairwise fun p q => p.1 < q.1 :=
  (occupiedFrom_facts entities 0).1

theorem mem_occupiedSlots {α : Type} (entities : List (Option α)) (p : ℕ × α) :
    p ∈ occupiedSlots entities ↔ entities[p.1]? = some (some p.2) := by
  unfold occupiedSlots
  rw [List.mem_filterMap]
  constructor
  · rintro ⟨q, hq, hmap⟩
    cases hq2 : q.2 with
    | none => rw [hq2] at hmap; simp at hmap
    | some e =>
        rw [hq2] at hmap
        simp only [Option.map_some', Option.some.injEq] at hmap
        rw [← hmap]
        have := List.mem_enum_iff_getElem?.mp hq
        rw [hq2] at this
        exact this
  · intro h
    exact ⟨(p.1, some p.2), List.mem_enum_iff_getElem?.mpr h, rfl⟩

theorem occupiedSlots_getSlot {α : Type} (entities : List (Option α)) :
    ∀ p ∈ occupiedSlots entities, getSlot entities p.1 = some p.2 := by
  intro p hp
  rw [mem_occupiedSlots] at hp
  unfold getSlot
  rw [hp]
  rfl

theorem getSlot_eq_some_iff {α : Type} (entities : List (Option α)) (id : ℕ) (e : α) :
    getSlot entities id = some e ↔ entities[id]? = some (some e) := by
  unfold getSlot
  exact Option.join_eq_some

theorem mem_occupiedSlots_ids {α : Type} (entities : List (Option α)) (id : ℕ) :
    id ∈ (occupiedSlots entities).map Prod.fst ↔ (getSlot entities id).isSome = true := by
  rw [List.mem_map]
  constructor
  · rintro ⟨p, hp, rfl⟩
    rw [occupiedSlots_getSlot entities p hp]
    rfl
  · intro h
    cases hg : getSlot entities id with
    | none => rw [hg] at h; simp at h
    | some e =>
        refine ⟨(id, e), ?_, rfl⟩
        rw [mem_occupiedSlots]
        exact (getSlot_eq_some_iff entities id e).mp hg

theorem occupiedSlots_ids_nodup {α : Type} (entities : List (Option α)) :
    ((occupiedSlots entities).map Prod.fst).Nodup := by
  have h : ((occupiedSlots entities).map Prod.fst).Pairwise (· < ·) :=
    List.Pairwise.map Prod.fst (fun a b hab => hab) (occupiedSlots_pairwise entities)
  exact h.imp Nat.ne_of_lt

/-- C1: tick isolation of `worker_func`.  The tick is the scan followed by a
left fold of the queued actions: every system invocation during the scan
receives the pre-tick content of its slot and reads every other entity
through the pre-tick lookup `getSlot entities`, so nothing enqueued during
tick `T` is visible to any read within tick `T`; the actions are applied
after the full scan, in FIFO enqueue order (`List.foldl`), and the fold's
result is the store the next tick starts from. -/
theorem c1_tick_isolation {α : Type} (systems : List (String × EcsSystem α)) (delta : ℚ)
    (entities : List (Option α)) :
    worker_func systems delta entities =
      (scanActions systems delta entities).foldl applyAction (entities, [])
    ∧ scanActions systems delta entities =
        ((occupiedSlots entities).flatMap fun p =>
          systems.filterMap fun s =>
            (s.2 delta p.1 p.2 fun j => getSlot entities j).map (attachAction p.1))
    ∧ ∀ p ∈ occupiedSlots entities, getSlot entities p.1 = some p.2 :=
  ⟨worker_func_eq_scan_then_apply systems delta entities, rfl,
    occupiedSlots_getSlot entities⟩

/-- Witness for C1 at a concrete input: on the store `[some 5]` the scanned
slot `(0, 5)` observes exactly the pre-tick value of slot `0`. -/
theorem c1_tick_isolation_witness : getSlot [some 5] 0 = some 5 :=
  (c1_tick_isolation ([] : List (String × EcsSystem ℕ)) 0 [some 5]).2.2 (0, 5) (by decide)

/-- C2: `create_entity` returns the lowest currently-unoccupied slot index —
the returned slot is unoccupied, every lower slot is occupied, and the store
grows (id = length) exactly when no slot is empty; hence the id is distinct
from every currently-occupied id; and the new entity is stored at the
returned id. -/
theorem c2_create_entity_lowest {α : Type} (entities : List (Option α)) (entity : α) :
    getSlot entities (create_entity entities entity).1 = none
    ∧ (∀ j, j < (create_entity entities entity).1 → (getSlot entities j).isSome = true)
    ∧ (∀ j, (getSlot entities j).isSome = true → (create_entity entities entity).1 ≠ j)
    ∧ ((create_entity entities entity).1 = entities.length ↔
        ∀ j, j < entities.length → (getSlot entities j).isSome = true)
    ∧ getSlot (create_entity entities entity).2.1 (create_entity entities entity).1
        = some entity := by
  rcases h : entities.findIdx? (fun slot => slot.isNone) with _ | i
  · have hall := List.findIdx?_eq_none_iff.mp h
    have hid : (create_entity entities entity).1 = entities.length := by
      simp [create_entity, h]
    have hstore : (create_entity entities entity).2.1 = entities ++ [some entity] := by
      simp [create_entity, h]
    have ha : getSlot entities entities.length = none := by
      unfold getSlot
      rw [List.getElem?_eq_none (le_refl _)]
      rfl
    have hocc : ∀ j, j < entities.length → (getSlot entities j).isSome = true := by
      intro j hj
      have hmem := hall entities[j] (entities.getElem_mem hj)
      unfold getSlot
      rw [List.getElem?_eq_getElem hj]
      cases hv : entities[j] with
      | none => rw [hv] at hmem; simp at hmem
      | some e => rfl
    rw [hid, hstore]
    refine ⟨ha, fun j hj => hocc j hj, ?_, ⟨fun _ j hj => hocc j hj, fun _ => rfl⟩, ?_⟩
    · intro j hj heq
      rw [← heq, ha] at hj
      simp at hj
    · unfold getSlot
      rw [List.getElem?_concat_length]
      rfl
  · obtain ⟨hi, hpi, hprev⟩ := List.findIdx?_eq_some_iff_getElem.mp h
    have hid : (create_entity entities entity).1 = i := by
      simp [create_entity, h]
    have hstore : (create_entity entities entity).2.1 = entities.set i (some entity) := by
      simp [create_entity, h]
    have hnone : entities[i] = none := by
      simpa using hpi
    have ha : getSlot entities i = none := by
      unfold getSlot
      rw [List.getElem?_eq_getElem hi, hnone]
      rfl
    have hocc : ∀ j, j < i → (getSlot entities j).isSome = true := by
      intro j hj
      have hlt : j < entities.length := lt_trans hj hi
      have hji := hprev j hj
      unfold getSlot
      rw [List.getElem?_eq_getElem hlt]
      cases hv : entities[j] with
      | none => rw [hv] at hji; simp at hji
      | some e => rfl
    rw [hid, hstore]
    refine ⟨ha, hocc, ?_, ?_, ?_⟩
    · intro j hj heq
      rw [← heq, ha] at hj
      simp at hj
    · constructor
      · intro heq
        rw [heq] at hi
        exact absurd hi (lt_irrefl _)
      · intro hall'
        have := hall' i hi
        rw [ha] at this
        simp at this
    · unfold getSlot
      rw [List.getElem?_set_self hi]
      rfl

/-- Witness for C2 at a concrete input: on the store `[some 3, none]` the
created id is `1`, a currently-unoccupied slot below which every slot is
occupied, distinct from the occupied id `0`. -/
theorem c2_create_entity_lowest_witness :
    getSlot [some 3, none] (create_entity [some 3, none] (7 : ℕ)).1 = none
    ∧ (create_entity [some 3, none] (7 : ℕ)).1 ≠ 0 := by
  refine ⟨(c2_create_entity_lowest [some 3, none] 7).1, ?_⟩
  exact (c2_create_entity_lowest [some 3, none] 7).2.2.1 0 (by decide)

/-- C3 counterexample: destroying an id whose slot is *already empty* (store
`[none]`, id `0`) emits an `EntityDestroyed` notification — both through
`destroy_entity` and through a deferred `Destroy` action — contradicting the
claim that no notification is performed; in particular destroying the same
id twice notifies on the second call as well. -/
theorem c3_counterexample :
    (destroy_entity (α := ℕ) [none] 0).2 = [.entityDestroyed 0]
    ∧ (applyAction (α := ℕ) ([none], []) (.destroy 0)).2 = [.entityDestroyed 0]
    ∧ (destroy_entity (α := ℕ) ((destroy_entity [some 1] 0).1) 0).2
        = [.entityDestroyed 0] := by
  refine ⟨rfl, rfl, rfl⟩

/-- C3 (amended): destroying an id whose slot is empty (or that was never
created) leaves the *store contents* unchanged, but a destruction
notification is still emitted whenever the id is in range — `get_mut`
succeeds for any in-range index, occupied or not; only an out-of-range id is
a silent no-op.  The same holds for a deferred `Destroy` action in
`worker_func`'s apply loop. -/
theorem c3_destroy_amended {α : Type} (entities : List (Option α)) (events : List EcsEvent)
    (entity_id : ℕ) (h : getSlot entities entity_id = none) :
    (destroy_entity entities entity_id).1 = entities
    ∧ (destroy_entity entities entity_id).2 =
        (if entity_id < entities.length then [.entityDestroyed entity_id] else [])
    ∧ (applyAction (entities, events) (.destroy entity_id)).1 = entities
    ∧ (applyAction (entities, events) (.destroy entity_id)).2 =
        events ++ (if entity_id < entities.length then [.entityDestroyed entity_id] else []) := by
  have hset : entities.set entity_id none = entities := by
    by_cases hr : entity_id < entities.length
    · unfold getSlot at h
      rw [List.getElem?_eq_getElem hr] at h
      have hv : entities[entity_id] = none := by
        cases hv : entities[entity_id] with
        | none => rfl
        | some e => rw [hv] at h; exact absurd h (by simp)
      apply List.ext_getElem?
      intro j
      by_cases hj : entity_id = j
      · rw [← hj, List.getElem?_set_self hr, List.getElem?_eq_getElem hr, hv]
      · rw [List.getElem?_set_ne hj]
    · exact List.set_eq_of_length_le (le_of_not_lt hr)
  by_cases hr : entity_id < entities.length
  · rw [if_pos hr]
    simp only [destroy_entity, applyAction]
    rw [if_pos hr, if_pos hr]
    exact ⟨hset, rfl, hset, rfl⟩
  · rw [if_neg hr]
    simp only [destroy_entity, applyAction]
    rw [if_neg hr, if_neg hr]
    exact ⟨rfl, rfl, rfl, (List.append_nil events).symm⟩

/-- Witness for C3 (amended) at a concrete input: on the one-slot empty
store, destroy leaves the store unchanged and emits the (in-range)
notification. -/
theorem c3_destroy_amended_witness :
    (destroy_entity (α := ℕ) [none] 0).1 = [none]
    ∧ (destroy_entity (α := ℕ) [none] 0).2 = [.entityDestroyed 0] := by
  have h := c3_destroy_amended (α := ℕ) [none] [] 0 rfl
  exact ⟨h.1, by rw [h.2.1]; rfl⟩

theorem count_map_names (p1 : ℕ) (names : List String) (id : ℕ) (name : String) :
    List.count (id, name) (names.map fun nm => (p1, nm)) =
      if p1 = id then List.count name names else 0 := by
  induction names with
  | nil => simp
  | cons nm names ih =>
      simp only [List.map_cons, List.count_cons, ih, Prod.mk.injEq, beq_iff_eq]
      by_cases hp : p1 = id
      · subst hp
        by_cases hn : nm = name
        · subst hn; simp
        · simp [hn]
      · simp [hp]

theorem count_flatMap_invocations {α : Type} (names : List String) (hnames : names.Nodup)
    (id : ℕ) (name : String) :
    ∀ slots : List (ℕ × α), (slots.map Prod.fst).Nodup →
      List.count (id, name) (slots.flatMap fun p => names.map fun nm => (p.1, nm)) =
        if id ∈ slots.map Prod.fst ∧ name ∈ names then 1 else 0 := by
  intro slots
  induction slots with
  | nil => intro _; simp
  | cons p slots ih =>
      intro hnod
      rw [List.map_cons] at hnod
      obtain ⟨hpnot, htail⟩ := List.nodup_cons.mp hnod
      rw [List.flatMap_cons, List.count_append, count_map_names, ih htail]
      by_cases hp : p.1 = id
      · subst hp
        rw [if_pos rfl, if_neg (fun hc => hpnot hc.1)]
        simp only [List.map_cons, List.mem_cons, true_or, true_and, Nat.add_zero]
        by_cases hn : name ∈ names
        · rw [if_pos hn, List.count_eq_one_of_mem hnames hn]
        · rw [if_neg hn, List.count_eq_zero_of_not_mem hn]
      · rw [if_neg hp, Nat.zero_add]
        have hiff : ((id ∈ List.map Prod.fst slots) ∧ name ∈ names) ↔
            ((id ∈ List.map Prod.fst (p :: slots)) ∧ name ∈ names) := by
          simp only [List.map_cons, List.mem_cons]
          constructor
          · rintro ⟨h1, h2⟩; exact ⟨Or.inr h1, h2⟩
          · rintro ⟨h1 | h1, h2⟩
            · exact absurd h1.symm hp
            · exact ⟨h1, h2⟩
        rw [if_congr hiff rfl rfl]

theorem filter_flatMap_invocations {α : Type} (names : List String) (id : ℕ) :
    ∀ slots : List (ℕ × α), (slots.map Prod.fst).Nodup → id ∈ slots.map Prod.fst →
      ((slots.flatMap fun p => names.map fun nm => (p.1, nm)).filter fun q =>
          decide (q.1 = id)) = names.map fun nm => (id, nm) := by
  intro slots
  induction slots with
  | nil => intro _ hid; simp at hid
  | cons p slots ih =>
      intro hnod hid
      rw [List.map_cons] at hnod
      rw [List.map_cons] at hid
      obtain ⟨hpnot, htail⟩ := List.nodup_cons.mp hnod
      rw [List.flatMap_cons, List.filter_append]
      by_cases hp : p.1 = id
      · have hseg : ((names.map fun nm => (p.1, nm)).filter fun q => decide (q.1 = id)) =
            names.map fun nm => (id, nm) := by
          rw [hp]
          apply List.filter_eq_self.mpr
          intro a ha
          obtain ⟨nm, -, rfl⟩ := List.mem_map.mp ha
          simp
        have hrest : ((slots.flatMap fun p => names.map fun nm => (p.1, nm)).filter fun q =>
            decide (q.1 = id)) = [] := by
          rw [List.filter_eq_nil_iff]
          intro q hq
          obtain ⟨p', hp', hq'⟩ := List.mem_flatMap.mp hq
          obtain ⟨nm, -, rfl⟩ := List.mem_map.mp hq'
          have : p'.1 ∈ slots.map Prod.fst := List.mem_map.mpr ⟨p', hp', rfl⟩
          simp only [decide_eq_true_eq]
          intro heq
          rw [heq, ← hp] at this
          exact hpnot this
        rw [hseg, hrest, List.append_nil]
      · have hid' : id ∈ slots.map Prod.fst := by
          rcases List.mem_cons.mp hid with h | h
          · exact absurd h.symm hp
          · exact h
        have hseg : ((names.map fun nm => (p.1, nm)).filter fun q => decide (q.1 = id)) = [] := by
          rw [List.filter_eq_nil_iff]
          intro a ha
          obtain ⟨nm, -, rfl⟩ := List.mem_map.mp ha
          simpa using hp
        rw [hseg, List.nil_append, ih htail hid']

/-- C9: on every tick of `worker_func`, each registered system is invoked
exactly once against every occupied slot (the invocation trace counts the
pair `(id, name)` once exactly when the slot is occupied and the name is
registered); for every occupied slot the trace restricted to that slot is
the registry in its iteration order — which is ascending name order, the
hypothesis satisfied by `BTreeMap`'s name-sorted iteration; and the whole
scan happens before any deferred action is applied (the tick is the scan
followed by the fold of the actions). -/
theorem c9_system_ordering {α : Type} (systems : List (String × EcsSystem α)) (delta : ℚ)
    (entities : List (Option α))
    (hsorted : (systems.map Prod.fst).Sorted (· < ·)) :
    (∀ (id : ℕ) (name : String),
        List.count (id, name) (tickInvocations systems entities) =
          if (getSlot entities id).isSome = true ∧ name ∈ systems.map Prod.fst then 1 else 0)
    ∧ (∀ id : ℕ, (getSlot entities id).isSome = true →
        ((tickInvocations systems entities).filter fun q => decide (q.1 = id)) =
          systems.map fun s => (id, s.1))
    ∧ worker_func systems delta entities =
        (scanActions systems delta entities).foldl applyAction (entities, []) := by
  have hnames : (systems.map Prod.fst).Nodup := hsorted.nodup
  have hseg : (tickInvocations systems entities) =
      (occupiedSlots entities).flatMap fun p =>
        (systems.map Prod.fst).map fun nm => (p.1, nm) := by
    unfold tickInvocations
    simp only [List.map_map]
    rfl
  refine ⟨?_, ?_, worker_func_eq_scan_then_apply systems delta entities⟩
  · intro id name
    rw [hseg, count_flatMap_invocations (systems.map Prod.fst) hnames id name
      (occupiedSlots entities) (occupiedSlots_ids_nodup entities)]
    exact if_congr (and_congr_left' (mem_occupiedSlots_ids entities id)) rfl rfl
  · intro id hocc
    rw [hseg, filter_flatMap_invocations (systems.map Prod.fst) id (occupiedSlots entities)
      (occupiedSlots_ids_nodup entities) ((mem_occupiedSlots_ids entities id).mpr hocc)]
    rw [List.map_map]
    rfl

/-- Witness for C9 at a concrete input: with the name-sorted registry
`["a", "b"]` and the store `[some 7, none]`, the system `"b"` is invoked
exactly once against entity `0`. -/
theorem c9_system_ordering_witness :
    List.count ((0 : ℕ), "b")
      (tickInvocations
        [("a", fun _ _ _ _ => none), ("b", fun _ _ _ _ => none)]
        ([some 7, none] : List (Option ℕ))) = 1 := by
  have h := (c9_system_ordering
    [("a", fun _ _ _ _ => (none : Option (ActionReq ℕ))), ("b", fun _ _ _ _ => none)]
    0 [some 7, none] (by simp [List.Sorted]; decide)).1 0 "b"
  rw [h, if_pos ⟨rfl, by simp⟩]

/-- Witness for C10 at a concrete input: two overlapping bullets in slots 0
and 1 produce the directed entry `(1, 0)`, whose two ids are distinct. -/
theorem c10_no_self_collision_witness :
    ((1, 0) : ℕ × ℕ) ∈ collectPairs
        [some (.bullet ⟨⟨0, 0⟩, ⟨0, 1⟩⟩ ⟨[.point ⟨⟨0, 0⟩, 1⟩]⟩),
         some (.bullet ⟨⟨0, 0⟩, ⟨0, 1⟩⟩ ⟨[.point ⟨⟨0, 0⟩, 1⟩]⟩)]
    ∧ (1 : ℕ) ≠ 0 := by
  have hpairs : collectPairs
      [some (.bullet ⟨⟨0, 0⟩, ⟨0, 1⟩⟩ ⟨[.point ⟨⟨0, 0⟩, 1⟩]⟩),
       some (.bullet ⟨⟨0, 0⟩, ⟨0, 1⟩⟩ ⟨[.point ⟨⟨0, 0⟩, 1⟩]⟩)] =
      [((1, 0) : ℕ × ℕ), (0, 1)] := by
    norm_num [collectPairs, collectItems, occupiedSlots, List.enum, List.enumFrom,
      GEntity.collider, GEntity.transform, Collider.transform, PointCollider.transform,
      Vec2.add_def, Collider.collision_test, point_point_collision_test, distLe, dist2,
      List.filterMap_cons, List.filterMap_nil, List.flatMap_cons, List.flatMap_nil,
      List.map_cons, List.map_nil, List.filter_cons, List.filter_nil,
      List.append_nil, List.cons_append, List.nil_append]
  have hmem : ((1, 0) : ℕ × ℕ) ∈ collectPairs
      [some (.bullet ⟨⟨0, 0⟩, ⟨0, 1⟩⟩ ⟨[.point ⟨⟨0, 0⟩, 1⟩]⟩),
       some (.bullet ⟨⟨0, 0⟩, ⟨0, 1⟩⟩ ⟨[.point ⟨⟨0, 0⟩, 1⟩]⟩)] := by
    rw [hpairs]
    simp
  exact ⟨hmem,
    (c10_no_self_collision
      [some (.bullet ⟨⟨0, 0⟩, ⟨0, 1⟩⟩ ⟨[.point ⟨⟨0, 0⟩, 1⟩]⟩),
       some (.bullet ⟨⟨0, 0⟩, ⟨0, 1⟩⟩ ⟨[.point ⟨⟨0, 0⟩, 1⟩]⟩)] []).1 (1, 0) hmem⟩

end Asteroids

